import Mathlib

/-!
Verification of the EchoScript transcription core: the chunked batch
transcription pipeline, the streaming (real-time) pipeline, and the SRT
time formatter.  Data model and operations are shallowly embedded from
the repository sources (`app/services/transcription.py`,
`app/services/realtime_transcription.py`, `app/adapters/export.py`,
`app/controllers/transcription_controller.py`); audio samples are a type
parameter (their values never influence control flow), machine floats
are modelled as exact rationals, and the inference engine is a function
parameter returning `Except` to model a call that may raise.
-/

namespace EchoScript

/-! ## Constants (from `transcription.py` and `realtime_transcription.py`) -/

/-- transcription.py: `CHUNK_DURATION_SECONDS = 30`. -/
def CHUNK_DURATION_SECONDS : Nat := 30

/-- realtime_transcription.py: `SAMPLE_RATE = 16000`. -/
def SAMPLE_RATE : Nat := 16000

/-- realtime_transcription.py: `PROCESSING_INTERVAL_SECONDS = 5`. -/
def PROCESSING_INTERVAL_SECONDS : Nat := 5

/-- realtime_transcription.py:
`PROCESSING_QUEUE_SIZE = int(SAMPLE_RATE * PROCESSING_INTERVAL_SECONDS)`. -/
def PROCESSING_QUEUE_SIZE : Nat := SAMPLE_RATE * PROCESSING_INTERVAL_SECONDS

/-- Equality of `Except` values is decidable when both components have
decidable equality (used to evaluate embedded fallible functions on
concrete inputs). -/
instance {ε α : Type} [DecidableEq ε] [DecidableEq α] : DecidableEq (Except ε α) := fun a b => by
  cases a <;> cases b
  case error.error e f => exact decidable_of_iff (e = f) (by simp)
  case error.ok e x => exact Decidable.isFalse (by simp)
  case ok.error x e => exact Decidable.isFalse (by simp)
  case ok.ok x y => exact decidable_of_iff (x = y) (by simp)

/-! ## Data model -/

/-- A transcription segment `{start, end, text}` as produced by the
inference engine and stored in results; times are seconds, modelled as
exact rationals (`end` is a Lean keyword, hence the field name `end_`). -/
structure Segment where
  start : ℚ
  end_ : ℚ
  text : String
  deriving DecidableEq, Repr

/-- The batch result shape `{text, segments}` consumed by
`main.py`, the controller and the export adapters. -/
structure TranscriptionResult where
  text : String
  segments : List Segment
  deriving DecidableEq, Repr

/-! ## Chunk reader (from `TranscriptionService._read_chunks`)

The generator repeatedly reads up to `chunk_size_frames` frames and stops
at the first zero-length read (end of stream).  A read is empty exactly
when the file is exhausted or `chunk_size_frames = 0`.  The recursion is
bounded by a fuel argument: each non-empty read consumes at least one
frame, so `audio.length` steps always suffice. -/

def readChunksAux (chunkSize : Nat) : Nat → List α → List (List α)
  | 0, _ => []
  | fuel + 1, audio =>
    if chunkSize = 0 ∨ audio.isEmpty then []
    else audio.take chunkSize :: readChunksAux chunkSize fuel (audio.drop chunkSize)

/-- `_read_chunks(audio_file, chunk_size_frames)`: the list of successive
non-empty reads of at most `chunkSize` frames. -/
def readChunks (chunkSize : Nat) (audio : List α) : List (List α) :=
  readChunksAux chunkSize audio.length audio

/-- transcription.py line 45: `num_chunks = int(np.ceil(total_frames / chunk_size_frames))`,
the ceiling of the exact quotient. -/
def numChunks (totalFrames chunkSize : Nat) : Nat :=
  ⌈(totalFrames : ℚ) / (chunkSize : ℚ)⌉₊

/-! ## SRT time formatter (from `export.py`, `_format_srt_time`) -/

/-- export.py line 23: the `ValueError` message for a negative timestamp. -/
def NEGATIVE_TIME_MSG : String := "Ожидается неотрицательная временная метка"

/-- The floor of a rational, written through its numerator and
denominator so that it stays executable. -/
def ratFloor (q : ℚ) : ℤ := q.num / (q.den : ℤ)

/-- Python `round` on a real value: round half to even, otherwise to the
nearest integer (floats are modelled as exact rationals). -/
def pyRound (q : ℚ) : ℤ :=
  if q - ratFloor q = 1 / 2 then
    (if ratFloor q % 2 = 0 then ratFloor q else ratFloor q + 1)
  else ratFloor (q + 1 / 2)

/-- Python `str.strip()` with no argument: the string with whitespace
removed from both ends, embedded as a structural operation on the
character list. -/
def pyStrip (s : String) : String :=
  String.mk (((s.data.dropWhile Char.isWhitespace).reverse.dropWhile Char.isWhitespace).reverse)

/-- Zero-padded rendering of `f"{n:02d}"` for a natural number. -/
def pad2 (n : Nat) : String :=
  if n < 10 then "0" ++ toString n else toString n

/-- Zero-padded rendering of `f"{n:03d}"` for a natural number. -/
def pad3 (n : Nat) : String :=
  if n < 10 then "00" ++ toString n
  else if n < 100 then "0" ++ toString n
  else toString n

/-- `_format_srt_time(seconds)`: raises `ValueError` on a negative input,
otherwise rounds to milliseconds and peels off hours, minutes, seconds by
successive division and subtraction, rendering `HH:MM:SS,mmm`.  After the
negativity guard the millisecond count is non-negative, so it is carried
as a natural number and Python `int()` truncation agrees with `Nat`
division. -/
def formatSrtTime (seconds : ℚ) : Except String String :=
  if seconds < 0 then Except.error NEGATIVE_TIME_MSG
  else
    let ms0 : Nat := (pyRound (seconds * 1000)).toNat
    let hours : Nat := ms0 / 3600000
    let ms1 : Nat := ms0 - hours * 3600000
    let minutes : Nat := ms1 / 60000
    let ms2 : Nat := ms1 - minutes * 60000
    let secs : Nat := ms2 / 1000
    let ms3 : Nat := ms2 - secs * 1000
    Except.ok (pad2 hours ++ ":" ++ pad2 minutes ++ ":" ++ pad2 secs ++ "," ++ pad3 ms3)

/-- The SRT rendering of `t = 0`. -/
def SRT_AT_ZERO : String := "00:00:00,000"

/-- The SRT rendering of `t = 3661.5`. -/
def SRT_AT_3661_5 : String := "01:01:01,500"

/-! ## Batch transcription pipeline

The chunked `TranscriptionService.transcribe` accepting a task selector, a
cancellation token and a progress callback, and returning `{text, segments}`,
is the version called by `main.py` and
`TranscriptionController._execute_transcription`; that version of
`app/services/transcription.py` is not among the staged sources (the staged
file is an earlier revision with the signature
`transcribe(source_path, language, timestamps)` returning a plain string),
so the pipeline body below is modelled from the spec, section 4.1.  The
chunk reader and the chunk-count computation are shared with the staged
revision (lines 41 to 45 and 93 to 99) and are embedded from it above. -/

/-- Modelled from the spec: the cancellation token, "an externally settable
flag checked by value at chunk boundaries".  Once set it stays set, so it
is represented by the index of the first chunk-boundary check at which the
flag reads true (`none` when it is never set). -/
def tokenSet (cancelAt : Option Nat) (i : Nat) : Bool :=
  match cancelAt with
  | none => false
  | some c => decide (c ≤ i)

/-- Modelled from the spec: step 5 of section 4.1, adding the chunk offset
in seconds to both `start` and `end` of a segment. -/
def offsetSegment (off : ℚ) (s : Segment) : Segment :=
  { start := s.start + off, end_ := s.end_ + off, text := s.text }

/-- Modelled from the spec: step 7 of section 4.1, building `text` "by
stripping and joining each segment's text with a single space". -/
def stripJoin (segs : List Segment) : String :=
  " ".intercalate (segs.map (fun s => pyStrip s.text))

/-- The observable outcome of the chunk loop: the accumulated segment
list, the inference invocations and progress-callback invocations in
order, whether the loop exited on a set cancellation token, and whether
an inference call raised (aborting the loop). -/
structure LoopOut (α : Type) where
  segments : List Segment
  engineCalls : List (List α)
  progressCalls : List (Nat × Nat)
  cancelled : Bool
  errored : Bool
  deriving DecidableEq

/-- Modelled from the spec: steps 3 to 6 of section 4.1.  For each chunk
index `i` the loop first checks the cancellation token (set: stop at once
with the partial accumulation), then invokes the inference engine on the
chunk (an engine exception aborts the loop and is recorded as `errored`),
offsets every returned segment by `i * CHUNK_DURATION_SECONDS` seconds,
and finally invokes `progress_callback(i + 1, num_chunks)`. -/
def processChunks (engine : List α → Except String (List Segment))
    (cancelAt : Option Nat) (num : Nat) :
    List (List α) → Nat → LoopOut α
  | [], _ => ⟨[], [], [], false, false⟩
  | chunk :: rest, i =>
    if tokenSet cancelAt i then ⟨[], [], [], true, false⟩
    else
      match engine chunk with
      | Except.error _ => ⟨[], [chunk], [], false, true⟩
      | Except.ok segs =>
        let out := processChunks engine cancelAt num rest (i + 1)
        ⟨segs.map (offsetSegment ((i * CHUNK_DURATION_SECONDS : Nat) : ℚ)) ++ out.segments,
         chunk :: out.engineCalls,
         (i + 1, num) :: out.progressCalls,
         out.cancelled, out.errored⟩

/-- Everything observable about one batch run: the returned
`{text, segments}` result plus the effect trace of the loop. -/
structure BatchTrace (α : Type) where
  result : TranscriptionResult
  engineCalls : List (List α)
  progressCalls : List (Nat × Nat)
  cancelled : Bool
  errored : Bool
  deriving DecidableEq

/-- The empty result `{text: "", segments: []}`. -/
def emptyResult : TranscriptionResult := { text := "", segments := [] }

/-- Modelled from the spec: the batch pipeline of section 4.1.  Opening
the source may raise (`openExc`); otherwise the source yields `audio`
frames at `samplerate`, the chunk size and chunk count are computed as in
the staged reader code, the chunk loop runs, and any exception caught at
the top level turns the outcome into the empty result
`{text: "", segments: []}`.  On a normal or cancelled exit the result is
the accumulated segments together with their stripped, space-joined
texts. -/
def transcribe (engine : List α → Except String (List Segment))
    (cancelAt : Option Nat) (openExc : Option String)
    (samplerate : Nat) (audio : List α) : BatchTrace α :=
  match openExc with
  | some _ => ⟨emptyResult, [], [], false, true⟩
  | none =>
    let chunkSize := CHUNK_DURATION_SECONDS * samplerate
    let num := numChunks audio.length chunkSize
    let out := processChunks engine cancelAt num (readChunks chunkSize audio) 0
    if out.errored then ⟨emptyResult, out.engineCalls, out.progressCalls, out.cancelled, true⟩
    else ⟨⟨stripJoin out.segments, out.segments⟩, out.engineCalls, out.progressCalls,
          out.cancelled, false⟩

/-- The global segment list obtained by offsetting each chunk's engine
segments by its chunk offset, chunk `k` of the list standing at absolute
chunk index `i0 + k`. -/
def globalizeAll (segsOf : List α → List Segment) :
    List (List α) → Nat → List Segment
  | [], _ => []
  | chunk :: rest, i0 =>
    (segsOf chunk).map (offsetSegment ((i0 * CHUNK_DURATION_SECONDS : Nat) : ℚ)) ++
      globalizeAll segsOf rest (i0 + 1)

/-- The progress-callback trace of `k` successive chunks starting at
absolute chunk index `i0`, out of `num` total. -/
def progList (i0 k num : Nat) : List (Nat × Nat) :=
  match k with
  | 0 => []
  | k + 1 => (i0 + 1, num) :: progList (i0 + 1) k num

/-- Whether a call into the inference engine raised. -/
def isEngineError (r : Except String (List Segment)) : Bool :=
  match r with
  | Except.error _ => true
  | Except.ok _ => false

/-! ## Streaming pipeline (from `realtime_transcription.py`) -/

/-- Status message emitted before an inference call in the consumer loop
(realtime_transcription.py line 76). -/
def MSG_PROCESSING : String := "Обработка фрагмента..."

/-- Status message emitted after the buffer reset and by `start()`
(realtime_transcription.py lines 91 and 118). -/
def MSG_WAITING : String := "Ожидание аудио..."

/-- Status message prefix for a consumer-loop exception
(realtime_transcription.py line 97). -/
def workerErrMsg (e : String) : String := "Ошибка в потоке обработки: " ++ e

/-- Status message prefix forwarded by the capture callback on a device
status error (realtime_transcription.py line 56). -/
def audioErrMsg (s : String) : String := "Ошибка аудиопотока: " ++ s

/-- One item the consumer draws from the audio queue: a block of
captured samples, or a timeout of the bounded one-second wait
(`queue.Empty`, which just re-checks the stop flag and continues). -/
inductive QueueEvent (α : Type) where
  | chunk (data : List α)
  | timeout
  deriving DecidableEq

/-- The observable outcome of a consumer step or run: the accumulation
buffer afterwards, the inference invocations, the result-callback and
status-callback invocations in order, and whether the loop broke out of
its iteration (an exception terminates the loop for good). -/
structure StepOut (α : Type) where
  buffer : List α
  inferenceCalls : List (List α)
  resultCalls : List String
  statusCalls : List String
  stopped : Bool
  deriving DecidableEq

/-- One iteration of `RealtimeTranscriptionService._processing_worker`
(lines 66 to 98): a timeout is ignored; a dequeued block is appended to
the accumulation buffer; once the buffer holds at least
`PROCESSING_QUEUE_SIZE` samples the engine is invoked on exactly the
buffer, the returned text is stripped and emitted through the result
callback when non-empty, and the buffer is reset to empty.  An engine
exception is reported through the status callback and breaks the loop.
The engine returns the `text` field of the transcription result. -/
def workerStep (engine : List α → Except String String) (buffer : List α) :
    QueueEvent α → StepOut α
  | QueueEvent.timeout => ⟨buffer, [], [], [], false⟩
  | QueueEvent.chunk d =>
    let buf := buffer ++ d
    if PROCESSING_QUEUE_SIZE ≤ buf.length then
      match engine buf with
      | Except.error e => ⟨buf, [buf], [], [MSG_PROCESSING, workerErrMsg e], true⟩
      | Except.ok t =>
        ⟨[], [buf], (if pyStrip t = "" then [] else [pyStrip t]),
         [MSG_PROCESSING, MSG_WAITING], false⟩
    else ⟨buf, [], [], [], false⟩

/-- The consumer loop over a finite queue trace: steps run in order and
concatenate their effects; a step that broke the loop discards the rest
of the trace (the worker function has returned). -/
def workerRun (engine : List α → Except String String) (buffer : List α) :
    List (QueueEvent α) → StepOut α
  | [] => ⟨buffer, [], [], [], false⟩
  | ev :: rest =>
    let s := workerStep engine buffer ev
    if s.stopped then s
    else
      let r := workerRun engine s.buffer rest
      ⟨r.buffer, s.inferenceCalls ++ r.inferenceCalls, s.resultCalls ++ r.resultCalls,
       s.statusCalls ++ r.statusCalls, r.stopped⟩

/-- `RealtimeTranscriptionService._audio_callback` (lines 51 to 57): a
truthy device status is forwarded through the status callback, and the
captured block is enqueued unconditionally; nothing here stops the
stream.  Returns the queue afterwards and the status-callback
invocations. -/
def audioCallback (queue : List (List α)) (indata : List α) (status : Option String) :
    List (List α) × List String :=
  (queue ++ [indata],
   match status with
   | some s => [audioErrMsg s]
   | none => [])

/-! ## Streaming lifecycle (`start` / `stop`) -/

/-- Status messages of the streaming lifecycle
(realtime_transcription.py lines 102, 123 and 139). -/
def MSG_STARTING : String := "Запуск записи..."

/-- Status message emitted when `stop()` begins tearing down. -/
def MSG_STOPPING : String := "Остановка записи..."

/-- Status message emitted when `stop()` has finished. -/
def MSG_STOPPED : String := "Запись остановлена."

/-- The fields of `RealtimeTranscriptionService` relevant to the
`start` / `stop` lifecycle: the stop event, whether `_stream` and
`_processing_thread` hold live objects, and the queued audio blocks. -/
structure RTState (α : Type) where
  stopEventSet : Bool
  streamActive : Bool
  threadActive : Bool
  queued : List (List α)
  deriving DecidableEq

/-- The externally visible effects of one `stop()` call: status-callback
invocations, whether the capture stream was stopped and closed, whether
the consumer thread was joined, and whether the queue was drained. -/
structure StopEffects where
  statusCalls : List String
  streamStopped : Bool
  threadJoined : Bool
  queueDrained : Bool
  deriving DecidableEq

/-- `RealtimeTranscriptionService.stop` (lines 120 to 139): the entire
body is guarded by `if not self._stop_event.is_set()`: when the stop
event is already set the call returns at once with no effect; otherwise
it reports, sets the stop event, stops and clears the stream and thread
if present, drains the queue and reports completion. -/
def stop (s : RTState α) : RTState α × StopEffects :=
  if s.stopEventSet then (s, ⟨[], false, false, false⟩)
  else
    (⟨true, false, false, []⟩,
     ⟨[MSG_STOPPING, MSG_STOPPED], s.streamActive, s.threadActive, true⟩)

/-- `RealtimeTranscriptionService.start` (lines 100 to 118): reports,
clears the stop event, starts a fresh consumer thread and capture
stream, and reports again; the queue is left as it is.  Returns the new
state and the status-callback invocations. -/
def start (s : RTState α) : RTState α × List String :=
  (⟨false, true, true, s.queued⟩, [MSG_STARTING, MSG_WAITING])

/-- Effects of a `stop()` call that found the stop event already set:
none at all. -/
def noStopEffects : StopEffects := ⟨[], false, false, false⟩

/-! ## Concrete inputs used in end-to-end scenarios -/

/-- The text of the first scenario segment. -/
def HELLO : String := "hello"

/-- The text of the second scenario segment. -/
def WORLD : String := "world"

/-- Scenario B engine output for chunk 0: one segment 0 to 5, "hello". -/
def helloSeg : Segment := { start := 0, end_ := 5, text := HELLO }

/-- Scenario B engine output for chunk 1: one segment 2 to 4, "world". -/
def worldSeg : Segment := { start := 2, end_ := 4, text := WORLD }

/-- Scenario B engine: " hello" on a full 30-frame chunk (at samplerate
1), "world" on the short final chunk. -/
def scenarioEngine (c : List Unit) : Except String (List Segment) :=
  Except.ok (if c.length = 30 then [helloSeg] else [worldSeg])

/-- The final text of scenario B. -/
def HELLO_SPACE_WORLD : String := "hello world"

/-- The segments of scenario B after offset correction. -/
def scenarioSegments : List Segment :=
  [{ start := 0, end_ := 5, text := HELLO }, { start := 32, end_ := 34, text := WORLD }]

/-- A streaming engine text with surrounding whitespace, used to witness
the stripping behaviour. -/
def SPACED_HI : String := " hi "

/-- A batch engine failure message used in concrete runs. -/
def ENGINE_RAISED : String := "engine raised"

/-- A device status string used in concrete capture-callback runs. -/
def DEVICE_STATUS : String := "input overflow"

/-! ## Lemmas about the chunk reader -/

/-- The fuel argument of `readChunksAux` is irrelevant as soon as it
bounds the length of the audio. -/
theorem readChunksAux_congr (c : Nat) :
    ∀ (f1 f2 : Nat) (a : List α), a.length ≤ f1 → a.length ≤ f2 →
      readChunksAux c f1 a = readChunksAux c f2 a := by
  intro f1
  induction f1 with
  | zero =>
    intro f2 a h1 _
    have ha : a = [] := List.eq_nil_of_length_eq_zero (Nat.le_zero.mp h1)
    subst ha
    cases f2 <;> simp [readChunksAux]
  | succ f ih =>
    intro f2 a h1 h2
    cases f2 with
    | zero =>
      have ha : a = [] := List.eq_nil_of_length_eq_zero (Nat.le_zero.mp h2)
      subst ha
      simp [readChunksAux]
    | succ g =>
      simp only [readChunksAux]
      by_cases hca : c = 0 ∨ a.isEmpty
      · rw [if_pos hca, if_pos hca]
      · rw [if_neg hca, if_neg hca]
        push_neg at hca
        have hne : a ≠ [] := by
          intro h
          subst h
          exact hca.2 rfl
        have hlen : 0 < a.length := List.length_pos.mpr hne
        congr 1
        apply ih
        · rw [List.length_drop]
          omega
        · rw [List.length_drop]
          omega

/-- One-step unfolding of the chunk reader: an empty read (exhausted
audio or a zero chunk size) ends the iteration, otherwise the next
`chunkSize` frames form a chunk and reading continues on the rest. -/
theorem readChunks_eq (c : Nat) (a : List α) :
    readChunks c a = if c = 0 ∨ a.isEmpty then [] else a.take c :: readChunks c (a.drop c) := by
  by_cases h : c = 0 ∨ a.isEmpty
  · rw [if_pos h, readChunks]
    cases a with
    | nil => simp [readChunksAux]
    | cons x xs =>
      have hc : c = 0 := by
        rcases h with h | h
        · exact h
        · simp [List.isEmpty_cons] at h
      simp [readChunksAux, hc]
  · rw [if_neg h, readChunks]
    cases a with
    | nil => simp [List.isEmpty_nil] at h
    | cons x xs =>
      push_neg at h
      simp only [List.length_cons, readChunksAux]
      rw [if_neg (by push_neg; exact ⟨h.1, by simp [List.isEmpty_cons]⟩)]
      congr 1
      rw [readChunks]
      apply readChunksAux_congr
      · rw [List.length_drop]
        simp only [List.length_cons]
        omega
      · exact Nat.le_refl _

/-- Division step used to count chunks: for positive `n` and `c`,
removing one chunk of at most `c` frames lowers the ceiling count by
exactly one. -/
theorem ceil_div_succ (n c : Nat) (hc : 0 < c) (hn : 0 < n) :
    (n - c + c - 1) / c + 1 = (n + c - 1) / c := by
  have hr : n + c - 1 = (n - 1) + c := by omega
  rw [hr, Nat.add_div_right _ hc]
  by_cases h : n ≤ c
  · have h1 : n - c + c - 1 = c - 1 := by omega
    have h2 : n - 1 < c := by omega
    rw [h1, Nat.div_eq_of_lt (by omega), Nat.div_eq_of_lt h2]
  · have h1 : n - c + c - 1 = n - 1 := by omega
    rw [h1]

/-- The number of chunks produced by `readChunksAux` is the ceiling of
`length / c`, in its closed `(length + c - 1) / c` form. -/
theorem readChunksAux_length (c : Nat) (hc : 0 < c) :
    ∀ (fuel : Nat) (a : List α), a.length ≤ fuel →
      (readChunksAux c fuel a).length = (a.length + c - 1) / c := by
  intro fuel
  induction fuel with
  | zero =>
    intro a h
    have ha : a = [] := List.eq_nil_of_length_eq_zero (Nat.le_zero.mp h)
    subst ha
    simp only [readChunksAux, List.length_nil]
    exact (Nat.div_eq_of_lt (by omega)).symm
  | succ f ih =>
    intro a h
    simp only [readChunksAux]
    by_cases hca : c = 0 ∨ a.isEmpty
    · rcases hca with hca | hca
      · omega
      · have ha : a = [] := by
          cases a with
          | nil => rfl
          | cons x xs => simp [List.isEmpty_cons] at hca
        subst ha
        simp only [if_pos (Or.inr hca), List.length_nil]
        exact (Nat.div_eq_of_lt (by omega)).symm
    · rw [if_neg hca]
      push_neg at hca
      have hne : a ≠ [] := by
        intro hh
        subst hh
        exact hca.2 rfl
      have hlen : 0 < a.length := List.length_pos.mpr hne
      simp only [List.length_cons]
      rw [ih _ (by rw [List.length_drop]; omega), List.length_drop]
      exact ceil_div_succ a.length c hc hlen

/-- `numChunks`, the ceiling of the exact rational quotient computed by
the source, equals the closed natural-number form `(n + c - 1) / c`. -/
theorem numChunks_eq (n c : Nat) (hc : 0 < c) : numChunks n c = (n + c - 1) / c := by
  rw [← Nat.ceilDiv_eq_add_pred_div]
  have hcq : (0 : ℚ) < (c : ℚ) := by exact_mod_cast hc
  apply le_antisymm
  · rw [numChunks, Nat.ceil_le, div_le_iff₀ hcq]
    have h := le_smul_ceilDiv (α := ℕ) (β := ℕ) hc (b := n)
    rw [smul_eq_mul] at h
    calc ((n : ℚ)) ≤ ((c * (n ⌈/⌉ c) : ℕ) : ℚ) := by exact_mod_cast h
    _ = ((n ⌈/⌉ c : ℕ) : ℚ) * (c : ℚ) := by push_cast; ring
  · rw [ceilDiv_le_iff_le_mul hc]
    have h := Nat.le_ceil ((n : ℚ) / (c : ℚ))
    rw [div_le_iff₀ hcq] at h
    have : (n : ℚ) ≤ ((c * numChunks n c : ℕ) : ℚ) := by
      push_cast
      calc (n : ℚ) ≤ (⌈(n : ℚ) / (c : ℚ)⌉₊ : ℚ) * (c : ℚ) := h
      _ = (c : ℚ) * (⌈(n : ℚ) / (c : ℚ)⌉₊ : ℚ) := by ring
    exact_mod_cast this

/-- The chunk count of `readChunks` is exactly `numChunks` applied to the
total frame count. -/
theorem readChunks_length (c : Nat) (hc : 0 < c) (a : List α) :
    (readChunks c a).length = numChunks a.length c := by
  rw [readChunks, readChunksAux_length c hc a.length a (Nat.le_refl _), numChunks_eq _ _ hc]

/-- Reading from exhausted audio yields no chunks, whatever the fuel. -/
theorem readChunksAux_nil (c : Nat) (fuel : Nat) :
    readChunksAux c fuel ([] : List α) = [] := by
  cases fuel <;> simp [readChunksAux]

/-- Every chunk the reader yields is non-empty (the zero-length read is
the termination sentinel, never a chunk) and holds at most `c` frames. -/
theorem readChunksAux_mem (c : Nat) :
    ∀ (fuel : Nat) (a : List α), ∀ l ∈ readChunksAux c fuel a, l ≠ [] ∧ l.length ≤ c := by
  intro fuel
  induction fuel with
  | zero => intro a l hl; simp [readChunksAux] at hl
  | succ f ih =>
    intro a l hl
    simp only [readChunksAux] at hl
    by_cases hca : c = 0 ∨ a.isEmpty
    · rw [if_pos hca] at hl
      simp at hl
    · rw [if_neg hca] at hl
      push_neg at hca
      rcases List.mem_cons.mp hl with h | h
      · subst h
        have hne : a ≠ [] := by
          intro hh
          subst hh
          exact hca.2 rfl
        have h0 : 0 < a.length := List.length_pos.mpr hne
        constructor
        · intro hh
          have hlen := congrArg List.length hh
          rw [List.length_take] at hlen
          simp only [List.length_nil] at hlen
          have hc0 : 0 < c := Nat.pos_of_ne_zero hca.1
          omega
        · rw [List.length_take]
          exact Nat.min_le_left _ _
      · exact ih _ l h

/-- Same fact stated for `readChunks`. -/
theorem readChunks_mem (c : Nat) (a : List α) :
    ∀ l ∈ readChunks c a, l ≠ [] ∧ l.length ≤ c :=
  readChunksAux_mem c a.length a

/-- Every chunk but the last holds exactly `c` frames: a short read can
only happen at the end of the stream. -/
theorem readChunksAux_size (c : Nat) :
    ∀ (fuel : Nat) (a : List α) (i : Nat) (h : i + 1 < (readChunksAux c fuel a).length),
      ((readChunksAux c fuel a)[i]).length = c := by
  intro fuel
  induction fuel with
  | zero => intro a i h; simp [readChunksAux] at h
  | succ f ih =>
    intro a i h
    by_cases hca : c = 0 ∨ a.isEmpty
    · simp only [readChunksAux, if_pos hca] at h
      simp at h
    · have hrw : readChunksAux c (f + 1) a =
          a.take c :: readChunksAux c f (a.drop c) := by
        simp only [readChunksAux, if_neg hca]
      rcases i with _ | j
      · have hlen : 0 + 1 < (readChunksAux c (f + 1) a).length := h
        rw [hrw] at hlen
        rw [List.getElem_of_eq hrw, List.getElem_cons_zero, List.length_take]
        simp only [List.length_cons] at hlen
        have hrest : 0 < (readChunksAux c f (a.drop c)).length := by omega
        have hdne : a.drop c ≠ [] := by
          intro hh
          rw [hh, readChunksAux_nil] at hrest
          simp at hrest
        have : c < a.length := by
          have := List.length_pos.mpr hdne
          rw [List.length_drop] at this
          omega
        omega
      · have h2 : j + 1 + 1 < (List.take c a :: readChunksAux c f (a.drop c)).length := by
          rw [← hrw]
          exact h
        rw [List.getElem_of_eq hrw, List.getElem_cons_succ]
        exact ih (a.drop c) j (by simpa using h2)

/-- Same fact stated for `readChunks`. -/
theorem readChunks_size (c : Nat) (a : List α) (i : Nat)
    (h : i + 1 < (readChunks c a).length) :
    ((readChunks c a)[i]).length = c :=
  readChunksAux_size c a.length a i h

/-! ## Lemmas about the chunk loop -/

/-- With a total engine and no cancellation, the loop processes every
chunk: it calls the engine once per chunk in order, reports progress
`(i0+1, num) … (i0+k, num)`, accumulates exactly the offset-corrected
segments, and exits neither cancelled nor errored. -/
theorem processChunks_ok_none (segsOf : List α → List Segment) (num : Nat) :
    ∀ (chunks : List (List α)) (i0 : Nat),
      processChunks (fun ch => Except.ok (segsOf ch)) none num chunks i0 =
        ⟨globalizeAll segsOf chunks i0, chunks, progList i0 chunks.length num,
         false, false⟩ := by
  intro chunks
  induction chunks with
  | nil => intro i0; simp [processChunks, globalizeAll, progList]
  | cons ch rest ih =>
    intro i0
    simp only [processChunks, tokenSet, Bool.false_eq_true, if_false]
    rw [ih (i0 + 1)]
    simp [globalizeAll, progList]

/-- With a total engine and the token set from check index `c` onward,
the loop processes exactly the chunks with absolute index below `c`,
returning the partial accumulation; it is marked cancelled exactly when
the token cut the iteration short. -/
theorem processChunks_ok_some (segsOf : List α → List Segment) (num : Nat) (c : Nat) :
    ∀ (chunks : List (List α)) (i0 : Nat),
      processChunks (fun ch => Except.ok (segsOf ch)) (some c) num chunks i0 =
        ⟨globalizeAll segsOf (chunks.take (c - i0)) i0, chunks.take (c - i0),
         progList i0 (chunks.take (c - i0)).length num,
         decide (c - i0 < chunks.length), false⟩ := by
  intro chunks
  induction chunks with
  | nil => intro i0; simp [processChunks, globalizeAll, progList]
  | cons ch rest ih =>
    intro i0
    simp only [processChunks, tokenSet]
    by_cases h : c ≤ i0
    · rw [if_pos (by simpa using h)]
      have h0 : c - i0 = 0 := by omega
      simp [h0, globalizeAll, progList]
    · rw [if_neg (by simpa using h)]
      rw [ih (i0 + 1)]
      have h1 : c - i0 = (c - (i0 + 1)) + 1 := by omega
      rw [h1, List.take_succ_cons]
      have hd : decide (c - (i0 + 1) < rest.length) = decide (c - i0 < (ch :: rest).length) := by
        rw [decide_eq_decide, List.length_cons]
        omega
      rw [hd, ← h1]
      rfl

/-- The loop is marked errored exactly when the engine rejected one of
the chunks it was invoked on. -/
theorem processChunks_errored_iff (engine : List α → Except String (List Segment))
    (cancelAt : Option Nat) (num : Nat) :
    ∀ (chunks : List (List α)) (i0 : Nat),
      (processChunks engine cancelAt num chunks i0).errored = true ↔
        ∃ ch ∈ (processChunks engine cancelAt num chunks i0).engineCalls,
          isEngineError (engine ch) = true := by
  intro chunks
  induction chunks with
  | nil => intro i0; simp [processChunks]
  | cons ch rest ih =>
    intro i0
    simp only [processChunks]
    by_cases ht : tokenSet cancelAt i0
    · rw [if_pos ht]
      simp
    · rw [if_neg ht]
      cases heq : engine ch with
      | error e =>
        simp [heq, isEngineError]
      | ok segs =>
        simp only [heq]
        constructor
        · intro h
          rcases (ih (i0 + 1)).mp h with ⟨x, hx, hxe⟩
          exact ⟨x, List.mem_cons_of_mem _ hx, hxe⟩
        · intro ⟨x, hx, hxe⟩
          rcases List.mem_cons.mp hx with hx | hx
          · subst hx
            rw [heq] at hxe
            simp [isEngineError] at hxe
          · exact (ih (i0 + 1)).mpr ⟨x, hx, hxe⟩

/-- The progress trace over `k` chunks from absolute index `i0` is the
range `i0+1 … i0+k`, each paired with the total. -/
theorem progList_eq (num : Nat) :
    ∀ (k i0 : Nat), progList i0 k num = (List.range k).map (fun j => (i0 + j + 1, num)) := by
  intro k
  induction k with
  | zero => intro i0; simp [progList]
  | succ k ih =>
    intro i0
    rw [List.range_succ_eq_map]
    simp only [progList, List.map_cons, List.map_map]
    refine congrArg₂ List.cons (by simp) ?_
    rw [ih (i0 + 1)]
    apply List.map_congr_left
    intro x _
    simp only [Function.comp_apply]
    congr 1
    all_goals omega

/-- A segment the engine emits for the chunk at position `i` appears in
the globalized list shifted by the absolute chunk offset. -/
theorem mem_globalizeAll (segsOf : List α → List Segment) :
    ∀ (chunks : List (List α)) (i0 i : Nat) (h : i < chunks.length) (seg : Segment),
      seg ∈ segsOf chunks[i] →
      offsetSegment (((i0 + i) * CHUNK_DURATION_SECONDS : Nat) : ℚ) seg ∈
        globalizeAll segsOf chunks i0 := by
  intro chunks
  induction chunks with
  | nil => intro i0 i h; simp at h
  | cons ch rest ih =>
    intro i0 i h seg hseg
    rcases i with _ | j
    · simp only [List.getElem_cons_zero] at hseg
      simp only [globalizeAll]
      apply List.mem_append_left
      rw [Nat.add_zero]
      exact List.mem_map.mpr ⟨seg, hseg, rfl⟩
    · simp only [List.getElem_cons_succ] at hseg
      simp only [globalizeAll]
      apply List.mem_append_right
      have hres := ih (i0 + 1) j (by simpa using h) seg hseg
      have harith : i0 + 1 + j = i0 + (j + 1) := by omega
      rw [harith] at hres
      exact hres

/-- A full run of the pipeline with a total engine and no cancellation:
every chunk is read, inferred and globalized, progress is reported once
per chunk, and the text joins the stripped segment texts. -/
theorem transcribe_ok_none (segsOf : List α → List Segment) (sr : Nat) (audio : List α) :
    transcribe (fun ch => Except.ok (segsOf ch)) none none sr audio =
      ⟨⟨stripJoin
          (globalizeAll segsOf (readChunks (CHUNK_DURATION_SECONDS * sr) audio) 0),
        globalizeAll segsOf (readChunks (CHUNK_DURATION_SECONDS * sr) audio) 0⟩,
       readChunks (CHUNK_DURATION_SECONDS * sr) audio,
       progList 0 (readChunks (CHUNK_DURATION_SECONDS * sr) audio).length
         (numChunks audio.length (CHUNK_DURATION_SECONDS * sr)),
       false, false⟩ := by
  simp [transcribe, processChunks_ok_none]

/-- A run of the pipeline with a total engine and the token set from
check index `c` onward: only the first `c` chunks are processed and the
partial accumulation is returned. -/
theorem transcribe_ok_some (segsOf : List α → List Segment) (sr : Nat) (audio : List α)
    (c : Nat) :
    transcribe (fun ch => Except.ok (segsOf ch)) (some c) none sr audio =
      ⟨⟨stripJoin
          (globalizeAll segsOf ((readChunks (CHUNK_DURATION_SECONDS * sr) audio).take c) 0),
        globalizeAll segsOf ((readChunks (CHUNK_DURATION_SECONDS * sr) audio).take c) 0⟩,
       (readChunks (CHUNK_DURATION_SECONDS * sr) audio).take c,
       progList 0 ((readChunks (CHUNK_DURATION_SECONDS * sr) audio).take c).length
         (numChunks audio.length (CHUNK_DURATION_SECONDS * sr)),
       decide (c < (readChunks (CHUNK_DURATION_SECONDS * sr) audio).length),
       false⟩ := by
  have h := processChunks_ok_some segsOf
    (numChunks audio.length (CHUNK_DURATION_SECONDS * sr)) c
    (readChunks (CHUNK_DURATION_SECONDS * sr) audio) 0
  simp only [Nat.sub_zero] at h
  simp [transcribe, h]

/-- `ratFloor` agrees with the mathematical floor on the rationals. -/
theorem ratFloor_eq_floor (q : ℚ) : ratFloor q = ⌊q⌋ := Rat.floor_def.symm

/-- `pyRound` is the identity on integers. -/
theorem pyRound_intCast (n : ℤ) : pyRound ((n : ℤ) : ℚ) = n := by
  have h1 : ⌊((n : ℤ) : ℚ)⌋ = n := Int.floor_intCast n
  have h2 : ⌊((n : ℚ) + 1 / 2)⌋ = n := by
    rw [Int.floor_eq_iff]
    constructor <;> norm_num
  simp only [pyRound, ratFloor_eq_floor, h1, h2]
  norm_num

/-! ## Claim theorems -/

/-- C1: for every chunk index i processed by the batch pipeline, every
segment returned by the inference engine for that chunk with
engine-relative start s and end e appears in the final result with
global start s + i*30 and end e + i*30 (the chunk offset in seconds is
added to both fields before the segment joins the running list). -/
theorem segment_offsets_in_final_result {α : Type} (segsOf : List α → List Segment)
    (cancelAt : Option Nat) (sr : Nat) (audio : List α) (i : Nat)
    (h1 : i < (readChunks (CHUNK_DURATION_SECONDS * sr) audio).length)
    (h2 : ∀ c, cancelAt = some c → i < c) (seg : Segment)
    (hseg : seg ∈ segsOf (readChunks (CHUNK_DURATION_SECONDS * sr) audio)[i]) :
    { start := seg.start + ((i * CHUNK_DURATION_SECONDS : Nat) : ℚ),
      end_ := seg.end_ + ((i * CHUNK_DURATION_SECONDS : Nat) : ℚ),
      text := seg.text } ∈
      (transcribe (fun ch => Except.ok (segsOf ch)) cancelAt none sr audio).result.segments := by
  cases cancelAt with
  | none =>
    rw [transcribe_ok_none]
    have hmem := mem_globalizeAll segsOf
      (readChunks (CHUNK_DURATION_SECONDS * sr) audio) 0 i h1 seg hseg
    rw [Nat.zero_add] at hmem
    exact hmem
  | some c =>
    rw [transcribe_ok_some]
    have hc : i < c := h2 c rfl
    have hlt : i < ((readChunks (CHUNK_DURATION_SECONDS * sr) audio).take c).length := by
      rw [List.length_take]
      omega
    have hseg2 : seg ∈ segsOf ((readChunks (CHUNK_DURATION_SECONDS * sr) audio).take c)[i] := by
      rw [List.getElem_take]
      exact hseg
    have hmem := mem_globalizeAll segsOf
      ((readChunks (CHUNK_DURATION_SECONDS * sr) audio).take c) 0 i hlt seg hseg2
    rw [Nat.zero_add] at hmem
    exact hmem

/-- C1 witness: at samplerate 1 a 31-frame source yields two chunks; a
segment emitted for chunk 1 lands in the result shifted by 30 seconds. -/
theorem segment_offsets_in_final_result_witness :
    { start := helloSeg.start + ((1 * CHUNK_DURATION_SECONDS : Nat) : ℚ),
      end_ := helloSeg.end_ + ((1 * CHUNK_DURATION_SECONDS : Nat) : ℚ),
      text := helloSeg.text } ∈
      (transcribe (fun ch => Except.ok ((fun _ => [helloSeg]) ch)) none none 1
        (List.replicate 31 ())).result.segments :=
  segment_offsets_in_final_result (fun _ => [helloSeg]) none 1 (List.replicate 31 ()) 1
    (by decide) (fun c h => by cases h) helloSeg (List.mem_singleton.mpr rfl)

/-- C2: the loop checks the token before each chunk; a token set before
chunk k is read (so reading true from check index k-1 on, here
c ≤ k - 1) means inference runs on no chunk beyond the first c, at most
k-1 chunks are processed, and the result carries exactly the partial
accumulation of those chunks. -/
theorem cancellation_bounds_processed_chunks {α : Type} (segsOf : List α → List Segment)
    (sr : Nat) (audio : List α) (c k : Nat) (hck : c ≤ k - 1) :
    (transcribe (fun ch => Except.ok (segsOf ch)) (some c) none sr audio).engineCalls =
        (readChunks (CHUNK_DURATION_SECONDS * sr) audio).take c ∧
    (transcribe (fun ch => Except.ok (segsOf ch)) (some c) none sr audio).engineCalls.length
        ≤ k - 1 ∧
    (transcribe (fun ch => Except.ok (segsOf ch)) (some c) none sr audio).result.segments =
        globalizeAll segsOf ((readChunks (CHUNK_DURATION_SECONDS * sr) audio).take c) 0 := by
  rw [transcribe_ok_some]
  refine ⟨rfl, ?_, rfl⟩
  rw [List.length_take]
  exact le_trans (Nat.min_le_left _ _) hck

/-- C2 witness: a token set before the first chunk is read stops the
pipeline with no inference calls and no segments. -/
theorem cancellation_bounds_processed_chunks_witness :
    (transcribe (fun ch => Except.ok ((fun _ => ([] : List Segment)) ch)) (some 0) none 1
        (List.replicate 31 ())).engineCalls =
        (readChunks (CHUNK_DURATION_SECONDS * 1) (List.replicate 31 ())).take 0 ∧
    (transcribe (fun ch => Except.ok ((fun _ => ([] : List Segment)) ch)) (some 0) none 1
        (List.replicate 31 ())).engineCalls.length ≤ 1 - 1 ∧
    (transcribe (fun ch => Except.ok ((fun _ => ([] : List Segment)) ch)) (some 0) none 1
        (List.replicate 31 ())).result.segments =
        globalizeAll (fun _ => ([] : List Segment))
          ((readChunks (CHUNK_DURATION_SECONDS * 1) (List.replicate 31 ())).take 0) 0 :=
  cancellation_bounds_processed_chunks (fun _ => ([] : List Segment)) 1
    (List.replicate 31 ()) 0 1 (by decide)

/-- C3: the returned result always satisfies text =
space-join of the stripped segment texts, and end-to-end scenario B
(engine says hello for chunk 0 and world for chunk 1, offset 30) yields
segments 0 to 5 hello, 32 to 34 world and the final text hello world. -/
theorem final_text_is_stripped_join :
    (∀ (α : Type) (engine : List α → Except String (List Segment))
        (cancelAt : Option Nat) (openExc : Option String) (sr : Nat) (audio : List α),
        (transcribe engine cancelAt openExc sr audio).result.text =
          stripJoin (transcribe engine cancelAt openExc sr audio).result.segments) ∧
    (transcribe scenarioEngine none none 1 (List.replicate 31 ())).result =
      { text := HELLO_SPACE_WORLD, segments := scenarioSegments } := by
  have hnil : stripJoin [] = "" := by decide
  constructor
  · intro α engine cancelAt openExc sr audio
    cases openExc with
    | some e => simp [transcribe, emptyResult, hnil]
    | none =>
      simp only [transcribe]
      split
      · simp [emptyResult, hnil]
      · rfl
  · have heng : scenarioEngine = fun ch =>
        Except.ok ((fun c => if c.length = 30 then [helloSeg] else [worldSeg]) ch) := rfl
    have hch : readChunks (CHUNK_DURATION_SECONDS * 1) (List.replicate 31 ()) =
        [List.replicate 30 (), [()]] := by decide
    rw [heng, transcribe_ok_none, hch]
    have hg : globalizeAll (fun c => if c.length = 30 then [helloSeg] else [worldSeg])
        [List.replicate 30 (), [()]] 0 = scenarioSegments := by
      simp only [globalizeAll, List.length_replicate, List.length_singleton]
      norm_num [offsetSegment, helloSeg, worldSeg, scenarioSegments, CHUNK_DURATION_SECONDS]
    rw [hg]
    have hstrip : stripJoin scenarioSegments = HELLO_SPACE_WORLD := by decide
    rw [hstrip]

/-- C4: absent cancellation (and engine failure), the pipeline invokes
the progress callback exactly num_chunks times, once after each chunk,
with arguments (i+1, num_chunks), the first strictly increasing from 1
to num_chunks. -/
theorem progress_reported_per_chunk {α : Type} (segsOf : List α → List Segment)
    (sr : Nat) (audio : List α) (hsr : 0 < sr) :
    (transcribe (fun ch => Except.ok (segsOf ch)) none none sr audio).progressCalls =
      (List.range (numChunks audio.length (CHUNK_DURATION_SECONDS * sr))).map
        (fun i => (i + 1, numChunks audio.length (CHUNK_DURATION_SECONDS * sr))) ∧
    (transcribe (fun ch => Except.ok (segsOf ch)) none none sr audio).progressCalls.length =
      numChunks audio.length (CHUNK_DURATION_SECONDS * sr) := by
  have hcpos : 0 < CHUNK_DURATION_SECONDS * sr :=
    Nat.mul_pos (by norm_num [CHUNK_DURATION_SECONDS]) hsr
  rw [transcribe_ok_none]
  have hlen := readChunks_length (CHUNK_DURATION_SECONDS * sr) hcpos audio
  constructor
  · show progList 0 (readChunks (CHUNK_DURATION_SECONDS * sr) audio).length
        (numChunks audio.length (CHUNK_DURATION_SECONDS * sr)) = _
    rw [hlen, progList_eq]
    apply List.map_congr_left
    intro x _
    rw [Nat.zero_add]
  · show (progList 0 (readChunks (CHUNK_DURATION_SECONDS * sr) audio).length
        (numChunks audio.length (CHUNK_DURATION_SECONDS * sr))).length = _
    rw [hlen, progList_eq]
    simp

/-- C4 witness: a 31-frame source at samplerate 1 makes two chunks and
two progress calls, (1,2) then (2,2). -/
theorem progress_reported_per_chunk_witness :
    (transcribe (fun ch => Except.ok ((fun _ => ([] : List Segment)) ch)) none none 1
        (List.replicate 31 ())).progressCalls =
      (List.range (numChunks (List.replicate 31 ()).length (CHUNK_DURATION_SECONDS * 1))).map
        (fun i => (i + 1, numChunks (List.replicate 31 ()).length (CHUNK_DURATION_SECONDS * 1))) ∧
    (transcribe (fun ch => Except.ok ((fun _ => ([] : List Segment)) ch)) none none 1
        (List.replicate 31 ())).progressCalls.length =
      numChunks (List.replicate 31 ()).length (CHUNK_DURATION_SECONDS * 1) :=
  progress_reported_per_chunk (fun _ => ([] : List Segment)) 1 (List.replicate 31 ())
    (by decide)

/-- C5: the pipeline computes num_chunks as the ceiling of total frames
over 30 times the samplerate and invokes the engine exactly num_chunks
times; every chunk is non-empty and at most chunk-size long, every chunk
but the last is exactly chunk-size long, and a 45-second source at
16 kHz yields exactly two chunks of 30 and 15 seconds. -/
theorem chunk_count_and_sizes {α : Type} (sr : Nat) (audio : List α)
    (segsOf : List α → List Segment) (hsr : 0 < sr) :
    (readChunks (CHUNK_DURATION_SECONDS * sr) audio).length =
        numChunks audio.length (CHUNK_DURATION_SECONDS * sr) ∧
    (∀ l ∈ readChunks (CHUNK_DURATION_SECONDS * sr) audio,
        l ≠ [] ∧ l.length ≤ CHUNK_DURATION_SECONDS * sr) ∧
    (∀ (i : Nat) (h : i + 1 < (readChunks (CHUNK_DURATION_SECONDS * sr) audio).length),
        ((readChunks (CHUNK_DURATION_SECONDS * sr) audio)[i]).length =
          CHUNK_DURATION_SECONDS * sr) ∧
    (transcribe (fun ch => Except.ok (segsOf ch)) none none sr audio).engineCalls.length =
        numChunks audio.length (CHUNK_DURATION_SECONDS * sr) ∧
    (readChunks (CHUNK_DURATION_SECONDS * 16000)
        (List.replicate (45 * 16000) ())).map List.length = [30 * 16000, 15 * 16000] := by
  have hcpos : 0 < CHUNK_DURATION_SECONDS * sr :=
    Nat.mul_pos (by norm_num [CHUNK_DURATION_SECONDS]) hsr
  refine ⟨readChunks_length _ hcpos audio, readChunks_mem _ audio,
    fun i h => readChunks_size _ audio i h, ?_, ?_⟩
  · rw [transcribe_ok_none]
    show (readChunks (CHUNK_DURATION_SECONDS * sr) audio).length = _
    exact readChunks_length _ hcpos audio
  · have hC : CHUNK_DURATION_SECONDS * 16000 = 480000 := by
      norm_num [CHUNK_DURATION_SECONDS]
    have hT : (45 * 16000 : Nat) = 720000 := by norm_num
    rw [hC, hT]
    have hne : ∀ (n : Nat), n ≠ 0 → ¬((480000 : Nat) = 0 ∨ (List.replicate n ()).isEmpty = true) := by
      intro n hn
      push_neg
      refine ⟨by norm_num, ?_⟩
      cases n with
      | zero => exact absurd rfl hn
      | succ m => simp [List.replicate_succ, List.isEmpty_cons]
    have h1 : readChunks 480000 (List.replicate 720000 ()) =
        List.replicate 480000 () :: readChunks 480000 (List.replicate 240000 ()) := by
      rw [readChunks_eq, if_neg (hne 720000 (by norm_num)), List.take_replicate,
        List.drop_replicate, min_eq_left (by norm_num : (480000 : ℕ) ≤ 720000),
        (by norm_num : (720000 : ℕ) - 480000 = 240000)]
    have h2 : readChunks 480000 (List.replicate 240000 ()) =
        List.replicate 240000 () :: readChunks 480000 ([] : List Unit) := by
      rw [readChunks_eq, if_neg (hne 240000 (by norm_num)), List.take_replicate,
        List.drop_replicate, min_eq_right (by norm_num : (240000 : ℕ) ≤ 480000),
        (by norm_num : (240000 : ℕ) - 480000 = 0), List.replicate_zero]
    have h3 : readChunks 480000 ([] : List Unit) = [] := by
      rw [readChunks_eq]
      simp
    rw [h1, h2, h3]
    simp only [List.map_cons, List.map_nil, List.length_replicate]

/-- C5 witness: the chunk facts instantiated on the empty source at
samplerate 1. -/
theorem chunk_count_and_sizes_witness :
    (readChunks (CHUNK_DURATION_SECONDS * 1) ([] : List Unit)).length =
        numChunks ([] : List Unit).length (CHUNK_DURATION_SECONDS * 1) ∧
    (∀ l ∈ readChunks (CHUNK_DURATION_SECONDS * 1) ([] : List Unit),
        l ≠ [] ∧ l.length ≤ CHUNK_DURATION_SECONDS * 1) ∧
    (∀ (i : Nat) (h : i + 1 < (readChunks (CHUNK_DURATION_SECONDS * 1) ([] : List Unit)).length),
        ((readChunks (CHUNK_DURATION_SECONDS * 1) ([] : List Unit))[i]).length =
          CHUNK_DURATION_SECONDS * 1) ∧
    (transcribe (fun ch => Except.ok ((fun _ => ([] : List Segment)) ch)) none none 1
        ([] : List Unit)).engineCalls.length =
        numChunks ([] : List Unit).length (CHUNK_DURATION_SECONDS * 1) ∧
    (readChunks (CHUNK_DURATION_SECONDS * 16000)
        (List.replicate (45 * 16000) ())).map List.length = [30 * 16000, 15 * 16000] :=
  chunk_count_and_sizes 1 ([] : List Unit) (fun _ => ([] : List Segment)) (by decide)

/-- C6: any exception while opening the source or invoking inference is
caught at the top level and the pipeline returns the empty result, never
propagating the exception (the embedding is total, so propagation is
impossible by construction; this theorem states that a failed run
returns exactly the empty result, not a partial one). -/
theorem errors_caught_return_empty {α : Type} (engine : List α → Except String (List Segment))
    (cancelAt : Option Nat) (openExc : Option String) (sr : Nat) (audio : List α)
    (h : openExc ≠ none ∨
      ∃ ch ∈ (transcribe engine cancelAt openExc sr audio).engineCalls,
        isEngineError (engine ch) = true) :
    (transcribe engine cancelAt openExc sr audio).result = emptyResult := by
  cases openExc with
  | some e => rfl
  | none =>
    rcases h with h | h
    · exact absurd rfl h
    · have hcalls : (transcribe engine cancelAt none sr audio).engineCalls =
          (processChunks engine cancelAt
            (numChunks audio.length (CHUNK_DURATION_SECONDS * sr))
            (readChunks (CHUNK_DURATION_SECONDS * sr) audio) 0).engineCalls := by
        simp only [transcribe]
        split <;> rfl
      rw [hcalls] at h
      have herr := (processChunks_errored_iff engine cancelAt
        (numChunks audio.length (CHUNK_DURATION_SECONDS * sr))
        (readChunks (CHUNK_DURATION_SECONDS * sr) audio) 0).mpr h
      simp only [transcribe]
      rw [if_pos herr]

/-- C6 witness: an engine that raises on its first chunk makes the
pipeline return the empty result. -/
theorem errors_caught_return_empty_witness :
    (transcribe (fun _ => Except.error ENGINE_RAISED) none none 1
        (List.replicate 5 ())).result = emptyResult :=
  errors_caught_return_empty (fun _ => Except.error ENGINE_RAISED) none none 1
    (List.replicate 5 ()) (Or.inr (by decide))

/-- C7 counterexample: a full 5-second block whose transcription text is
empty triggers exactly one inference call but zero result-callback
invocations, refuting the claim that reaching the threshold always
yields exactly one result-callback invocation carrying the engine text
(the consumer forwards only non-empty stripped text). -/
theorem empty_text_skips_result_callback :
    (workerRun (fun _ => Except.ok "") []
        [QueueEvent.chunk (List.replicate PROCESSING_QUEUE_SIZE ())]).inferenceCalls.length
      = 1 ∧
    (workerRun (fun _ => Except.ok "") []
        [QueueEvent.chunk (List.replicate PROCESSING_QUEUE_SIZE ())]).resultCalls = [] ∧
    ¬ (workerRun (fun _ => Except.ok "") []
        [QueueEvent.chunk (List.replicate PROCESSING_QUEUE_SIZE ())]).resultCalls.length = 1 := by
  have hq : PROCESSING_QUEUE_SIZE ≤ (List.replicate PROCESSING_QUEUE_SIZE ()).length := by
    simp
  have hps : pyStrip "" = "" := by decide
  have hstep : workerStep (fun _ => Except.ok "") []
      (QueueEvent.chunk (List.replicate PROCESSING_QUEUE_SIZE ())) =
      ⟨[], [List.replicate PROCESSING_QUEUE_SIZE ()], [],
       [MSG_PROCESSING, MSG_WAITING], false⟩ := by
    simp only [workerStep, List.nil_append]
    rw [if_pos hq]
    simp [hps]
  simp [workerRun, hstep]

/-- C7 as amended: whenever a dequeued block brings the accumulation
buffer to at least the 5-second threshold (80000 samples at 16 kHz), the
consumer performs exactly one inference call on exactly the accumulated
buffer, strips the returned text and invokes the result callback exactly
once with the stripped text when it is non-empty (and not at all when it
is empty), then resets the buffer to empty; feeding a second identical
block triggers a second, independent inference call on a disjoint
window. -/
theorem window_processing_amended {α : Type} (engine : List α → Except String String)
    (b : List α) (t : String)
    (hlen : PROCESSING_QUEUE_SIZE ≤ b.length) (heng : engine b = Except.ok t) :
    (∀ (buffer d : List α), buffer ++ d = b →
        workerStep engine buffer (QueueEvent.chunk d) =
          ⟨[], [b], if pyStrip t = "" then [] else [pyStrip t],
           [MSG_PROCESSING, MSG_WAITING], false⟩) ∧
    workerRun engine [] [QueueEvent.chunk b, QueueEvent.chunk b] =
      ⟨[], [b, b],
       (if pyStrip t = "" then [] else [pyStrip t]) ++
         (if pyStrip t = "" then [] else [pyStrip t]),
       [MSG_PROCESSING, MSG_WAITING, MSG_PROCESSING, MSG_WAITING], false⟩ := by
  have hstep : ∀ (buffer d : List α), buffer ++ d = b →
      workerStep engine buffer (QueueEvent.chunk d) =
        ⟨[], [b], if pyStrip t = "" then [] else [pyStrip t],
         [MSG_PROCESSING, MSG_WAITING], false⟩ := by
    intro buffer d hbd
    simp only [workerStep, hbd]
    rw [if_pos hlen, heng]
  refine ⟨hstep, ?_⟩
  have h1 := hstep [] b (by simp)
  simp [workerRun, h1]

/-- C7 witness for the amended statement: a threshold-sized block with
engine text " hi " produces one inference call and one result call with
the stripped text "hi", twice over for two identical blocks. -/
theorem window_processing_amended_witness :
    (∀ (buffer d : List Unit), buffer ++ d = List.replicate PROCESSING_QUEUE_SIZE () →
        workerStep (fun _ => Except.ok SPACED_HI) buffer (QueueEvent.chunk d) =
          ⟨[], [List.replicate PROCESSING_QUEUE_SIZE ()],
           if pyStrip SPACED_HI = "" then [] else [pyStrip SPACED_HI],
           [MSG_PROCESSING, MSG_WAITING], false⟩) ∧
    workerRun (fun _ => Except.ok SPACED_HI) []
        [QueueEvent.chunk (List.replicate PROCESSING_QUEUE_SIZE ()),
         QueueEvent.chunk (List.replicate PROCESSING_QUEUE_SIZE ())] =
      ⟨[], [List.replicate PROCESSING_QUEUE_SIZE (), List.replicate PROCESSING_QUEUE_SIZE ()],
       (if pyStrip SPACED_HI = "" then [] else [pyStrip SPACED_HI]) ++
         (if pyStrip SPACED_HI = "" then [] else [pyStrip SPACED_HI]),
       [MSG_PROCESSING, MSG_WAITING, MSG_PROCESSING, MSG_WAITING], false⟩ :=
  window_processing_amended (fun _ => Except.ok SPACED_HI)
    (List.replicate PROCESSING_QUEUE_SIZE ()) SPACED_HI (by simp) rfl

/-- C8: an exception inside the consumer loop is reported through the
status callback and ends the loop for good (the remaining queue trace is
never processed and no restart happens), while a device status error in
the capture callback is forwarded through the status callback and the
captured block is still enqueued, the stream left running. -/
theorem streaming_failure_handling {α : Type} (engine : List α → Except String String)
    (buffer d : List α) (rest : List (QueueEvent α)) (e : String)
    (q : List (List α)) (s : String)
    (hlen : PROCESSING_QUEUE_SIZE ≤ (buffer ++ d).length)
    (heng : engine (buffer ++ d) = Except.error e) :
    workerRun engine buffer (QueueEvent.chunk d :: rest) =
      ⟨buffer ++ d, [buffer ++ d], [], [MSG_PROCESSING, workerErrMsg e], true⟩ ∧
    audioCallback q d (some s) = (q ++ [d], [audioErrMsg s]) := by
  have hstep : workerStep engine buffer (QueueEvent.chunk d) =
      ⟨buffer ++ d, [buffer ++ d], [], [MSG_PROCESSING, workerErrMsg e], true⟩ := by
    simp only [workerStep]
    rw [if_pos hlen, heng]
  exact ⟨by simp [workerRun, hstep], rfl⟩

/-- C8 witness: a raising engine on a threshold-sized buffer stops the
consumer with one error status, and a device status error still enqueues
the captured block. -/
theorem streaming_failure_handling_witness :
    workerRun (fun _ => Except.error ENGINE_RAISED) (List.replicate PROCESSING_QUEUE_SIZE ())
        (QueueEvent.chunk ([] : List Unit) :: [QueueEvent.timeout]) =
      ⟨List.replicate PROCESSING_QUEUE_SIZE () ++ [],
       [List.replicate PROCESSING_QUEUE_SIZE () ++ []], [],
       [MSG_PROCESSING, workerErrMsg ENGINE_RAISED], true⟩ ∧
    audioCallback ([] : List (List Unit)) ([] : List Unit) (some DEVICE_STATUS) =
      ([] ++ [[]], [audioErrMsg DEVICE_STATUS]) :=
  streaming_failure_handling (fun _ => Except.error ENGINE_RAISED)
    (List.replicate PROCESSING_QUEUE_SIZE ()) [] [QueueEvent.timeout] ENGINE_RAISED
    [] DEVICE_STATUS (by simp) rfl

/-- C10: once stop has completed (the stop event is set), every further
stop call is a no-op with no status calls, no stream teardown, no thread
join and no queue drain, until start runs again and makes stop effectful
once more. -/
theorem stop_idempotent_between_starts {α : Type} (s : RTState α) :
    stop ((stop s).1) = ((stop s).1, noStopEffects) ∧
    (s.stopEventSet = true → stop s = (s, noStopEffects)) ∧
    (stop ((start s).1)).2 =
      { statusCalls := [MSG_STOPPING, MSG_STOPPED], streamStopped := true,
        threadJoined := true, queueDrained := true } := by
  refine ⟨?_, ?_, ?_⟩
  · by_cases h : s.stopEventSet = true
    · simp [stop, h, noStopEffects]
    · simp [stop, h, noStopEffects]
  · intro h
    simp [stop, h, noStopEffects]
  · simp [stop, start]

end EchoScript

/-- C9: the SRT time formatter maps 0 seconds to 00:00:00,000 and 3661.5
seconds to 01:01:01,500 (HH:MM:SS,mmm with milliseconds rounded). -/
theorem EchoScript.formatSrtTime_boundary_values :
    EchoScript.formatSrtTime 0 = Except.ok EchoScript.SRT_AT_ZERO ∧
    EchoScript.formatSrtTime (3661.5 : ℚ) = Except.ok EchoScript.SRT_AT_3661_5 := by
  have e0 : (0 : ℚ) * 1000 = ((0 : ℤ) : ℚ) := by norm_num
  have e1 : (3661.5 : ℚ) * 1000 = ((3661500 : ℤ) : ℚ) := by norm_num
  constructor
  · have : EchoScript.formatSrtTime 0 =
        Except.ok (EchoScript.pad2 0 ++ ":" ++ EchoScript.pad2 0 ++ ":" ++
          EchoScript.pad2 0 ++ "," ++ EchoScript.pad3 0) := by
      simp only [EchoScript.formatSrtTime, e0, EchoScript.pyRound_intCast]
      norm_num
    rw [this]
    decide
  · have : EchoScript.formatSrtTime (3661.5 : ℚ) =
        Except.ok (EchoScript.pad2 1 ++ ":" ++ EchoScript.pad2 1 ++ ":" ++
          EchoScript.pad2 1 ++ "," ++ EchoScript.pad3 500) := by
      simp only [EchoScript.formatSrtTime, e1, EchoScript.pyRound_intCast]
      norm_num
      decide
    rw [this]
    decide
